import Mathlib

/-!
Verification of the gleam worker-side execution agent
(`distributed/agent/agent_grpc_server.go`) and the MergeTo instruction
(`instruction/mergeTo.go`), as a shallow embedding in Lean 4.

Go errors are modelled by `Option GoError` (`none` = the nil error) or
`Except GoError α`; `io.EOF` as a stream terminator is modelled by `none`
in `Option GoError` terminal positions, as each model notes.
-/

namespace Gleam

/-- A Go `error` value (non-nil).  `exitStatus n` stands for the
`*exec.ExitError` of a child that exited with status `n`; `msg` for any
other error, identified by its text. -/
inductive GoError where
  | exitStatus (code : Nat)
  | msg (s : String)
  deriving DecidableEq, Repr

/-- Modelled from the spec: `pb.ComputeResource` (package `pb` is not under
`src/`) — a triple (CPU cores, memory MB, GPU units). -/
structure ComputeResource where
  cpuCount : Int
  memoryMB : Int
  gpuCount : Int
  deriving DecidableEq, Repr

/-- Modelled from the spec: `ComputeResource.Plus` performs elementwise
addition on (CPU, memory-MB, GPU). -/
def ComputeResource.Plus (r a : ComputeResource) : ComputeResource :=
  ⟨r.cpuCount + a.cpuCount, r.memoryMB + a.memoryMB, r.gpuCount + a.gpuCount⟩

/-- Modelled from the spec: `ComputeResource.Minus` performs elementwise
subtraction on (CPU, memory-MB, GPU). -/
def ComputeResource.Minus (r a : ComputeResource) : ComputeResource :=
  ⟨r.cpuCount - a.cpuCount, r.memoryMB - a.memoryMB, r.gpuCount - a.gpuCount⟩

/-- One adjustment of the agent-wide allocation ledger
(`as.allocatedResource`), performed under `allocatedResourceLock`:
`plusAllocated` or `minusAllocated` in `agent_grpc_server.go`. -/
inductive LedgerOp where
  | plus (a : ComputeResource)
  | minus (a : ComputeResource)
  deriving DecidableEq, Repr

/-- Executing one ledger adjustment: `plusAllocated` does
`*as.allocatedResource = as.allocatedResource.Plus(allocated)` and
`minusAllocated` the `Minus` counterpart. -/
def applyLedgerOp (r : ComputeResource) : LedgerOp → ComputeResource
  | .plus a => r.Plus a
  | .minus a => r.Minus a

/-- The ledger adjustments one `Execute` call performs, in program order:
`as.plusAllocated(allocated)` at admission and the deferred
`as.minusAllocated(allocated)` on return (`defer` runs on every exit path,
including panic). -/
def executeLedgerOps (a : ComputeResource) : List LedgerOp :=
  [.plus a, .minus a]

/-- The signed contribution of one ledger adjustment. -/
def ledgerDelta : LedgerOp → ComputeResource
  | .plus a => a
  | .minus a => ⟨-a.cpuCount, -a.memoryMB, -a.gpuCount⟩

instance : Zero ComputeResource := ⟨⟨0, 0, 0⟩⟩

instance : Add ComputeResource := ⟨ComputeResource.Plus⟩

theorem ComputeResource.add_def (r a : ComputeResource) :
    r + a = ⟨r.cpuCount + a.cpuCount, r.memoryMB + a.memoryMB,
             r.gpuCount + a.gpuCount⟩ := rfl

instance : AddCommMonoid ComputeResource where
  add_assoc a b c := by
    simp only [ComputeResource.add_def, ComputeResource.mk.injEq]
    exact ⟨add_assoc _ _ _, add_assoc _ _ _, add_assoc _ _ _⟩
  add_comm a b := by
    simp only [ComputeResource.add_def, ComputeResource.mk.injEq]
    exact ⟨add_comm _ _, add_comm _ _, add_comm _ _⟩
  zero_add a := by
    show ComputeResource.mk (0 + a.cpuCount) (0 + a.memoryMB) (0 + a.gpuCount) = a
    simp
  add_zero a := by
    show ComputeResource.mk (a.cpuCount + 0) (a.memoryMB + 0) (a.gpuCount + 0) = a
    simp
  nsmul := nsmulRec

theorem applyLedgerOp_eq_add (r : ComputeResource) (op : LedgerOp) :
    applyLedgerOp r op = r + ledgerDelta op := by
  cases op with
  | plus a => rfl
  | minus a =>
    show ComputeResource.Minus r a = r + ledgerDelta (.minus a)
    simp only [ComputeResource.Minus, ledgerDelta, ComputeResource.add_def,
      ComputeResource.mk.injEq]
    exact ⟨sub_eq_add_neg _ _, sub_eq_add_neg _ _, sub_eq_add_neg _ _⟩

theorem foldl_applyLedgerOp (ops : List LedgerOp) (r : ComputeResource) :
    ops.foldl applyLedgerOp r = r + (ops.map ledgerDelta).sum := by
  induction ops generalizing r with
  | nil => simp
  | cons op rest ih =>
    simp only [List.foldl_cons, List.map_cons, List.sum_cons]
    rw [ih, applyLedgerOp_eq_add, add_assoc]

theorem executeLedgerOps_delta_sum (a : ComputeResource) :
    ((executeLedgerOps a).map ledgerDelta).sum = 0 := by
  simp only [executeLedgerOps, List.map_cons, List.map_nil, List.sum_cons,
    List.sum_nil, add_zero, ledgerDelta, ComputeResource.add_def]
  show ComputeResource.mk (a.cpuCount + -a.cpuCount) (a.memoryMB + -a.memoryMB)
    (a.gpuCount + -a.gpuCount) = 0
  simp only [add_neg_cancel]
  rfl

theorem executeLedgerOps_flatten_delta_sum (allocs : List ComputeResource) :
    ((allocs.map executeLedgerOps).flatten.map ledgerDelta).sum = 0 := by
  induction allocs with
  | nil => simp
  | cons a rest ih =>
    simp only [List.map_cons, List.flatten_cons, List.map_append, List.sum_append,
      ih, add_zero, executeLedgerOps_delta_sum]

/-- C1: For every `Execute` call, the allocation ledger is adjusted by
exactly one plus of the request resource at admission and one matching
deferred minus on every exit path, so after any set of `Execute` calls
completes — their ledger operations interleaved in any order — the ledger
equals its value before they started. -/
theorem execute_ledger_balanced (allocs : List ComputeResource)
    (ops : List LedgerOp)
    (h : ops.Perm (allocs.map executeLedgerOps).flatten)
    (ledger : ComputeResource) :
    ops.foldl applyLedgerOp ledger = ledger := by
  rw [foldl_applyLedgerOp]
  have hsum : (ops.map ledgerDelta).sum
      = ((allocs.map executeLedgerOps).flatten.map ledgerDelta).sum :=
    (h.map ledgerDelta).sum_eq
  rw [hsum, executeLedgerOps_flatten_delta_sum, add_zero]

/-- Witness for C1: two concurrent `Execute` calls with allocations
(2,1024,0) and (3,2048,1), interleaved plus/plus/minus/minus, restore the
starting ledger (7,8,9). -/
theorem execute_ledger_balanced_witness :
    [LedgerOp.plus ⟨2, 1024, 0⟩, LedgerOp.plus ⟨3, 2048, 1⟩,
     LedgerOp.minus ⟨2, 1024, 0⟩, LedgerOp.minus ⟨3, 2048, 1⟩].foldl
       applyLedgerOp ⟨7, 8, 9⟩ = ⟨7, 8, 9⟩ :=
  execute_ledger_balanced [⟨2, 1024, 0⟩, ⟨3, 2048, 1⟩] _ (by decide) ⟨7, 8, 9⟩

/-! ## SendFileResource -/

/-- The metadata carried by the first inbound message of a
`SendFileResource` stream. -/
structure FileResourceRequest where
  flowHashCode : Nat
  dir : String
  name : String
  hash : Nat
  deriving DecidableEq, Repr

/-- `pb.FileResourceResponse{hasSameHash, true}`: positional fields
`alreadyPresent`, `ok`. -/
structure FileResourceResponse where
  alreadyPresent : Bool
  ok : Bool
  deriving DecidableEq, Repr

/-- The inbound stream after the metadata message: the `content` bytes of
each successful `stream.Recv()`, then a terminator — `none` models `io.EOF`
(client half-close), `some e` a receive error. -/
structure ChunkStream where
  chunks : List (List Nat)
  terminal : Option GoError

/-- The environment one `SendFileResource` call runs against: the outcome
of each external operation the handler performs, in program order. -/
structure SendFileResourceEnv where
  firstRecv : Except GoError FileResourceRequest
  mkdirErr : Option GoError
  onDiskHash : Except GoError Nat
  ackSendErr : Option GoError
  openErr : Option GoError
  inbound : ChunkStream
  writeErr : Nat → Option GoError

/-- What one `SendFileResource` call did: acknowledgements delivered,
content chunks consumed after the metadata message, the file content left
on disk (`none`: the file was never opened; `some bs`: opened with
`O_TRUNC` and `bs` is the concatenation of the successful writes), and the
returned error (`none` = nil). -/
structure SendFileResourceOutcome where
  sent : List FileResourceResponse
  chunksConsumed : Nat
  fileContent : Option (List Nat)
  ret : Option GoError
  deriving Repr

/-- The handler's receive-and-write loop: `for { request, err :=
stream.Recv(); if err == io.EOF { return nil }; if err != nil { return err };
_, err = f.Write(request.GetContent()); if err != nil { return err } }`.
Returns (chunks consumed, chunk contents written in order, returned error). -/
def recvWriteLoop (writeErr : Nat → Option GoError) :
    List (List Nat) → Option GoError → Nat × List (List Nat) × Option GoError
  | [], none => (0, [], none)
  | [], some e => (0, [], some e)
  | c :: rest, t =>
    match writeErr 0 with
    | some e => (1, [], some e)
    | none =>
      let r := recvWriteLoop (fun i => writeErr (i + 1)) rest t
      (r.1 + 1, c :: r.2.1, r.2.2)

/-- `AgentServer.SendFileResource`, straight from the source: receive the
metadata message; `os.MkdirAll(dir, 0755)` with its result discarded;
compute `hasSameHash` from `resource.GenerateFileHash(toFile)` (false when
hashing errors); send the acknowledgement; return nil if the hash matched;
otherwise open the target with `O_WRONLY|O_CREATE|O_TRUNC` and run the
receive-and-write loop. -/
def SendFileResource (env : SendFileResourceEnv) : SendFileResourceOutcome :=
  match env.firstRecv with
  | .error e => ⟨[], 0, none, some e⟩
  | .ok request =>
    -- os.MkdirAll(dir, 0755): the handler discards env.mkdirErr
    let hasSameHash := match env.onDiskHash with
      | .ok h => h == request.hash
      | .error _ => false
    match env.ackSendErr with
    | some e => ⟨[], 0, none, some e⟩
    | none =>
      if hasSameHash then ⟨[⟨hasSameHash, true⟩], 0, none, none⟩
      else match env.openErr with
        | some e => ⟨[⟨hasSameHash, true⟩], 0, none, some e⟩
        | none =>
          let r := recvWriteLoop env.writeErr env.inbound.chunks env.inbound.terminal
          ⟨[⟨hasSameHash, true⟩], r.1, some r.2.1.flatten, r.2.2⟩

/-- C3: when the on-disk hash of the target equals the request hash and the
acknowledgement send succeeds, the handler sends `already_present = true`,
terminates with success, consumes no content chunk and never opens (hence
never writes) the file. -/
theorem sendFileResource_already_present (env : SendFileResourceEnv)
    (req : FileResourceRequest)
    (hreq : env.firstRecv = .ok req)
    (hhash : env.onDiskHash = .ok req.hash)
    (hsend : env.ackSendErr = none) :
    SendFileResource env = ⟨[⟨true, true⟩], 0, none, none⟩ := by
  simp [SendFileResource, hreq, hhash, hsend]

/-- Witness for C3: a concrete matching-hash upload. -/
theorem sendFileResource_already_present_witness :
    SendFileResource
      ⟨.ok ⟨5, "rel", "data.bin", 42⟩, none, .ok 42, none, none,
       ⟨[[9, 9]], none⟩, fun _ => none⟩
      = ⟨[⟨true, true⟩], 0, none, none⟩ :=
  sendFileResource_already_present _ ⟨5, "rel", "data.bin", 42⟩ rfl rfl rfl

theorem recvWriteLoop_all_ok (chunks : List (List Nat))
    (writeErr : Nat → Option GoError) (hw : ∀ i, writeErr i = none) :
    recvWriteLoop writeErr chunks none = (chunks.length, chunks, none) := by
  induction chunks generalizing writeErr with
  | nil => rfl
  | cons c rest ih =>
    simp only [recvWriteLoop, hw 0, ih (fun i => writeErr (i + 1)) (fun i => hw (i + 1)),
      List.length_cons]

/-- C8: when the target file's hash cannot be computed (file absent or
unreadable) and the acknowledgement send, open and writes all succeed, the
handler acknowledges `already_present = false`, opens the target truncating
and appends every subsequent chunk in arrival order, consuming the whole
inbound stream and returning success at the client half-close. -/
theorem sendFileResource_upload (env : SendFileResourceEnv)
    (req : FileResourceRequest) (eh : GoError)
    (hreq : env.firstRecv = .ok req)
    (hhash : env.onDiskHash = .error eh)
    (hsend : env.ackSendErr = none)
    (hopen : env.openErr = none)
    (heof : env.inbound.terminal = none)
    (hw : ∀ i, env.writeErr i = none) :
    SendFileResource env =
      ⟨[⟨false, true⟩], env.inbound.chunks.length,
       some env.inbound.chunks.flatten, none⟩ := by
  simp [SendFileResource, hreq, hhash, hsend, hopen, ← heof,
    recvWriteLoop_all_ok env.inbound.chunks env.writeErr hw]
  rw [heof, recvWriteLoop_all_ok env.inbound.chunks env.writeErr hw]

/-- Witness for C8: a concrete three-chunk upload of a missing file. -/
theorem sendFileResource_upload_witness :
    SendFileResource
      ⟨.ok ⟨5, "rel", "data.bin", 42⟩, none, .error (.msg "no such file"),
       none, none, ⟨[[1, 2], [], [3]], none⟩, fun _ => none⟩
      = ⟨[⟨false, true⟩], 3, some [1, 2, 3], none⟩ :=
  sendFileResource_upload _ ⟨5, "rel", "data.bin", 42⟩ (.msg "no such file")
    rfl rfl rfl rfl rfl (fun _ => rfl)

/-- A concrete `SendFileResource` run in which `os.MkdirAll` failed. -/
def mkdirFailEnv : SendFileResourceEnv :=
  ⟨.ok ⟨5, "rel", "data.bin", 42⟩,
   some (.msg "mkdir: permission denied"),
   .error (.msg "no such file"),
   none,
   some (.msg "open: no such directory"),
   ⟨[[1, 2]], none⟩,
   fun _ => none⟩

/-- Counterexample to C6: a failed directory creation is not fatal at the
creation site — the handler discards the `MkdirAll` error and proceeds,
still sending its acknowledgement (`already_present = false`); the call
only fails later, with the open error, not the creation error. -/
theorem sendFileResource_mkdir_not_fatal :
    mkdirFailEnv.mkdirErr = some (GoError.msg "mkdir: permission denied") ∧
    (SendFileResource mkdirFailEnv).sent = [⟨false, true⟩] ∧
    (SendFileResource mkdirFailEnv).ret = some (GoError.msg "open: no such directory") ∧
    (SendFileResource mkdirFailEnv).ret ≠ some (GoError.msg "mkdir: permission denied") := by
  refine ⟨rfl, rfl, rfl, by decide⟩

/-! ## Execute / executeCommand -/

/-- A `fmt.Errorf("<text>: %v", e)` wrapper around an underlying error. -/
def GoError.wrap (s : String) (e : GoError) : GoError :=
  .msg (s ++ " " ++ (repr e).pretty)

/-- One `pb.ExecutionResponse` message: a stdout chunk (`Output`), a stderr
chunk (`Error`), the empty keepalive message, or the exit-stats message
(`SystemTime`, `UserTime`, modelled as whole seconds). -/
inductive ExecutionResponse where
  | output (bytes : List Nat)
  | errOutput (bytes : List Nat)
  | keepalive
  | exitStats (systemTime userTime : Int)
  deriving DecidableEq, Repr

/-- The sequential phases of `executeCommand` before the select: the three
pipe creations, `command.Start()`, `proto.Marshal` of the instructions, the
`stdin.Write`, and the `stdin.Close()`; each field is that operation's
outcome. -/
structure ExecSetupEnv where
  stdinPipeErr : Option GoError
  stdoutPipeErr : Option GoError
  stderrPipeErr : Option GoError
  startErr : Option GoError
  marshalRes : Except GoError (List Nat)
  stdinWriteErr : Option GoError
  stdinCloseErr : Option GoError

/-- What the sequential part of `executeCommand` did: whether
`command.Start()` succeeded, whether `stdin.Close()` was invoked before
returning, whether control reached the final select, and the early-return
error. -/
structure ExecSetupOutcome where
  started : Bool
  stdinCloseCalled : Bool
  reachedSelect : Bool
  ret : Option GoError
  deriving DecidableEq, Repr

/-- `executeCommand` up to the select, straight from the source: each
failed step returns its error at once; `stdin.Close()` is only reached
after a successful marshal and a successful `stdin.Write` — there is no
deferred close. -/
def executeCommandSetup (env : ExecSetupEnv) : ExecSetupOutcome :=
  match env.stdinPipeErr with
  | some e => ⟨false, false, false, some e⟩
  | none =>
  match env.stdoutPipeErr with
  | some e => ⟨false, false, false, some e⟩
  | none =>
  match env.stderrPipeErr with
  | some e => ⟨false, false, false, some e⟩
  | none =>
  match env.startErr with
  | some e => ⟨false, false, false, some e⟩
  | none =>
  match env.marshalRes with
  | .error e => ⟨true, false, false, some e⟩
  | .ok _ =>
  match env.stdinWriteErr with
  | some e => ⟨true, false, false, some e⟩
  | none =>
  match env.stdinCloseErr with
  | some e => ⟨true, true, false, some e⟩
  | none => ⟨true, true, true, none⟩

/-- A run of `executeCommand` in which the child was started and then
`proto.Marshal` of the instruction graph failed. -/
def marshalFailEnv : ExecSetupEnv :=
  ⟨none, none, none, none, .error (.msg "marshal failed"), none, none⟩

/-- A run in which the child was started and then the `stdin.Write` of the
marshalled instructions failed. -/
def stdinWriteFailEnv : ExecSetupEnv :=
  ⟨none, none, none, none, .ok [7, 7], some (.msg "write: broken pipe"), none⟩

/-- C7 (code bug): on the serialization-failure and stdin-write-failure
paths the child has been spawned, yet `executeCommand` returns without ever
calling `stdin.Close()` (the close is only reached after a successful
write; there is no deferred close), contradicting the spec's requirement
that stdin be closed on every post-spawn path.  On the all-success path the
close is performed. -/
theorem executeCommand_error_paths_leave_stdin_open :
    (executeCommandSetup marshalFailEnv).started = true ∧
    (executeCommandSetup marshalFailEnv).stdinCloseCalled = false ∧
    (executeCommandSetup marshalFailEnv).ret = some (.msg "marshal failed") ∧
    (executeCommandSetup stdinWriteFailEnv).started = true ∧
    (executeCommandSetup stdinWriteFailEnv).stdinCloseCalled = false ∧
    (executeCommandSetup ⟨none, none, none, none, .ok [7, 7], none, none⟩).stdinCloseCalled
      = true := by
  exact ⟨rfl, rfl, rfl, rfl, rfl, rfl⟩

/-- C6 as amended: the resolver's creation failure is discarded by both
callers, but each call still ultimately fails rather than completing
against the missing directory.  In the upload handler, once the hash is
uncomputable and the open in the missing directory fails, the handler
returns the open error, consuming no chunk and writing nothing (it does,
however, first send its acknowledgement); in `executeCommand`, when
`command.Start()` fails in the missing working directory, that error is
returned before the streaming phase. -/
theorem sendFileResource_mkdir_fail_call_fails (env : SendFileResourceEnv)
    (req : FileResourceRequest) (em eh eo : GoError)
    (hreq : env.firstRecv = .ok req)
    (hmk : env.mkdirErr = some em)
    (hhash : env.onDiskHash = .error eh)
    (hsend : env.ackSendErr = none)
    (hopen : env.openErr = some eo) :
    SendFileResource env = ⟨[⟨false, true⟩], 0, none, some eo⟩ ∧
    (∀ env2 : ExecSetupEnv, ∀ e2 : GoError,
      env2.stdinPipeErr = none → env2.stdoutPipeErr = none →
      env2.stderrPipeErr = none → env2.startErr = some e2 →
      (executeCommandSetup env2).ret = some e2 ∧
      (executeCommandSetup env2).reachedSelect = false) := by
  constructor
  · simp [SendFileResource, hreq, hhash, hsend, hopen]
  · intro env2 e2 h1 h2 h3 h4
    simp [executeCommandSetup, h1, h2, h3, h4]

/-- Witness for the amended C6, at the concrete failing run. -/
theorem sendFileResource_mkdir_fail_call_fails_witness :
    SendFileResource mkdirFailEnv =
      ⟨[⟨false, true⟩], 0, none, some (.msg "open: no such directory")⟩ ∧
    (∀ env2 : ExecSetupEnv, ∀ e2 : GoError,
      env2.stdinPipeErr = none → env2.stdoutPipeErr = none →
      env2.stderrPipeErr = none → env2.startErr = some e2 →
      (executeCommandSetup env2).ret = some e2 ∧
      (executeCommandSetup env2).reachedSelect = false) :=
  sendFileResource_mkdir_fail_call_fails mkdirFailEnv ⟨5, "rel", "data.bin", 42⟩
    (.msg "mkdir: permission denied") (.msg "no such file")
    (.msg "open: no such directory") rfl rfl rfl rfl rfl

/-- `sendExitStats`: emits the exit-stats message only when
`cmd.ProcessState` is non-nil; a failed send is wrapped and returned;
otherwise nil.  Returns (messages delivered, returned error). -/
def sendExitStats (processState : Option (Int × Int))
    (statsSendErr : Option GoError) : List ExecutionResponse × Option GoError :=
  match processState with
  | none => ([], none)
  | some (sys, usr) =>
    match statsSendErr with
    | some e => ([], some (.wrap "Failed to send exit stats response:" e))
    | none => ([.exitStats sys usr], none)

/-- Which arm of `executeCommand`'s final select fired: a value received
from `errChan` (`none` being the exit waiter's nil), or the RPC context
becoming done. -/
inductive SelectOutcome where
  | errRecv (e : Option GoError)
  | ctxDone
  deriving DecidableEq, Repr

/-- What the supervisor's termination phase did: messages it sent, whether
`command.Process.Kill()` and `command.Process.Release()` were called, and
the call's returned error. -/
structure TermOutcome where
  msgs : List ExecutionResponse
  killCalled : Bool
  releaseCalled : Bool
  ret : Option GoError
  deriving DecidableEq, Repr

/-- The select at the end of `executeCommand`: a non-nil error from
`errChan` is returned as-is; the nil from the exit waiter leads to
`sendExitStats`; `ctx.Done()` leads to kill, release and `ctx.Err()`. -/
def superviseTermination (processState : Option (Int × Int))
    (statsSendErr : Option GoError) (ctxErr : GoError) :
    SelectOutcome → TermOutcome
  | .errRecv (some e) => ⟨[], false, false, some e⟩
  | .errRecv none =>
    let r := sendExitStats processState statsSendErr
    ⟨r.1, false, false, r.2⟩
  | .ctxDone => ⟨[], true, true, some ctxErr⟩

/-- The exit waiter: `waitErr := command.Wait(); errChan <- waitErr` — it
forwards `command.Wait()`'s result unchanged (the source notes only it
ever sends a nil). -/
def exitWaiterSends (waitErr : Option GoError) : Option GoError := waitErr

/-- C4: a child exiting with nonzero status surfaces as
`some (.exitStatus n)` from the exit waiter; when the supervisor's
rendezvous receives it, the call returns exactly that error and sends
nothing; moreover every select outcome other than receiving the waiter's
nil (impossible here: the waiter's value is non-nil and the pumps only
ever send non-nil errors) emits no message at all, so no exit-stats
message is sent on such a call. -/
theorem execute_nonzero_exit (ps : Option (Int × Int)) (se : Option GoError)
    (ce : GoError) (n : Nat) :
    superviseTermination ps se ce
        (.errRecv (exitWaiterSends (some (.exitStatus n))))
      = ⟨[], false, false, some (.exitStatus n)⟩ ∧
    exitWaiterSends (some (.exitStatus n)) ≠ none ∧
    (∀ o : SelectOutcome, o ≠ .errRecv none →
      (superviseTermination ps se ce o).msgs = []) := by
  refine ⟨rfl, by simp [exitWaiterSends], ?_⟩
  intro o ho
  match o with
  | .errRecv none => exact absurd rfl ho
  | .errRecv (some e) => rfl
  | .ctxDone => rfl

/-- C5: when the RPC context becomes done before the child exits, the
supervisor's select takes the `ctx.Done()` arm: it calls
`command.Process.Kill()`, then `command.Process.Release()`, returns
`ctx.Err()` (the context's cancellation error), and emits no message —
in particular no exit-stats message. -/
theorem execute_cancellation (ps : Option (Int × Int)) (se : Option GoError)
    (ce : GoError) :
    superviseTermination ps se ce .ctxDone = ⟨[], true, true, some ce⟩ := rfl

/-! ## streamPulse (keepalive) -/

/-- One iteration trigger of `streamPulse`'s select: the stop channel
fired, or the minute ticker fired. -/
inductive PulseEvent where
  | stopRecv
  | tick
  deriving DecidableEq, Repr

/-- What a run of `streamPulse` produced: keepalive messages delivered,
values it wrote to `errChan`, and its return value (`none` both while
still looping and for the nil return on stop). -/
structure PulseOutcome where
  msgs : List ExecutionResponse
  errChanWrites : List GoError
  ret : Option GoError
  deriving Repr

/-- `streamPulse`, straight from the source: on stop, return nil; on a
tick, send the empty `ExecutionResponse`; if that send fails, return the
wrapped error.  No branch writes to `errChan`. -/
def streamPulse (sendErr : Nat → Option GoError) :
    List PulseEvent → PulseOutcome
  | [] => ⟨[], [], none⟩
  | .stopRecv :: _ => ⟨[], [], none⟩
  | .tick :: rest =>
    match sendErr 0 with
    | some e => ⟨[], [], some (.wrap "Failed to send empty response:" e)⟩
    | none =>
      let r := streamPulse (fun i => sendErr (i + 1)) rest
      ⟨.keepalive :: r.msgs, r.errChanWrites, r.ret⟩

theorem streamPulse_errChanWrites_nil (sendErr : Nat → Option GoError)
    (evs : List PulseEvent) : (streamPulse sendErr evs).errChanWrites = [] := by
  induction evs generalizing sendErr with
  | nil => rfl
  | cons ev rest ih =>
    cases ev with
    | stopRecv => rfl
    | tick =>
      simp only [streamPulse]
      cases sendErr 0 with
      | some e => rfl
      | none => exact ih (fun i => sendErr (i + 1))

/-- C9: a keepalive send failure makes `streamPulse` return a wrapped
error, but `streamPulse` never writes to `errChan`; hence whatever value
the supervisor receives from `errChan` was written by the stdout pump, the
stderr pump or the exit waiter — the keepalive task cannot produce the
call's terminal error. -/
theorem streamPulse_error_never_terminal (sendErr : Nat → Option GoError)
    (evs : List PulseEvent)
    (outWrites errWrites waiterWrites contents : List GoError) (e : GoError)
    (hchan : contents.Perm ((streamPulse sendErr evs).errChanWrites ++
      (outWrites ++ errWrites ++ waiterWrites)))
    (he : e ∈ contents) :
    (streamPulse sendErr evs).errChanWrites = [] ∧
    e ∈ outWrites ++ errWrites ++ waiterWrites ∧
    (∀ e2 : GoError, ∀ rest : List PulseEvent, sendErr 0 = some e2 →
      (streamPulse sendErr (.tick :: rest)).ret
        = some (.wrap "Failed to send empty response:" e2)) := by
  refine ⟨streamPulse_errChanWrites_nil sendErr evs, ?_, ?_⟩
  · have h0 := streamPulse_errChanWrites_nil sendErr evs
    rw [h0, List.nil_append] at hchan
    exact hchan.mem_iff.mp he
  · intro e2 rest h2
    simp only [streamPulse, h2]

/-- Witness for C9: a failing keepalive send alongside an exit-waiter
write; the received terminal error is the waiter's, and the pulse wrote
nothing to `errChan`. -/
theorem streamPulse_error_never_terminal_witness :
    (streamPulse (fun _ => some (.msg "send failed")) [.tick]).errChanWrites = [] ∧
    GoError.exitStatus 1 ∈ ([] ++ [] ++ [GoError.exitStatus 1] : List GoError) ∧
    (∀ e2 : GoError, ∀ rest : List PulseEvent,
      (fun _ : Nat => some (GoError.msg "send failed")) 0 = some e2 →
      (streamPulse (fun _ => some (.msg "send failed")) (.tick :: rest)).ret
        = some (.wrap "Failed to send empty response:" e2)) :=
  streamPulse_error_never_terminal (fun _ => some (.msg "send failed")) [.tick]
    [] [] [GoError.exitStatus 1] [GoError.exitStatus 1] (.exitStatus 1)
    (by decide) (by decide)

/-! ## Clean-exit trace order (exit stats vs keepalive) -/

/-- One observable event of `executeCommand`'s termination phase: a message
delivered on the RPC stream, or the rendezvous on the unbuffered
`stopChan` (`stopChan <- true` meets `<-stopChan`). -/
inductive TraceEvent where
  | send (m : ExecutionResponse)
  | stop
  deriving DecidableEq, Repr

/-- The supervisor's events on the clean-exit path, in program order:
`return sendExitStats(stream, command)` sends the exit-stats message, and
only then does the deferred `func() { stopChan <- true }()` run. -/
def supervisorCleanEv (sys usr : Int) : List TraceEvent :=
  [.send (.exitStats sys usr), .stop]

/-- The pulse thread's events: some number of ticker-driven keepalive
sends, then the receive on `stopChan`. -/
def pulseEv (k : Nat) : List TraceEvent :=
  List.replicate k (.send .keepalive) ++ [.stop]

/-- Interleavings of two threads' event lists in which each thread's order
is preserved and the two `stop` events synchronise into one rendezvous
(the unbuffered channel blocks the sender until the receiver is ready). -/
inductive SyncTrace : List TraceEvent → List TraceEvent → List TraceEvent → Prop
  | nil : SyncTrace [] [] []
  | left {xs ys zs} (m : ExecutionResponse) :
      SyncTrace xs ys zs → SyncTrace (.send m :: xs) ys (.send m :: zs)
  | right {xs ys zs} (m : ExecutionResponse) :
      SyncTrace xs ys zs → SyncTrace xs (.send m :: ys) (.send m :: zs)
  | sync {xs ys zs} :
      SyncTrace xs ys zs → SyncTrace (.stop :: xs) (.stop :: ys) (.stop :: zs)

/-- The messages a trace delivers on the stream, in delivery order. -/
def traceMsgs : List TraceEvent → List ExecutionResponse
  | [] => []
  | .send m :: rest => m :: traceMsgs rest
  | .stop :: rest => traceMsgs rest

instance : Inhabited ExecutionResponse := ⟨.keepalive⟩

/-- A plain order-preserving interleaving of two lists. -/
inductive Ilv : List ExecutionResponse → List ExecutionResponse →
    List ExecutionResponse → Prop
  | nil : Ilv [] [] []
  | left {xs ys zs} (x : ExecutionResponse) :
      Ilv xs ys zs → Ilv (x :: xs) ys (x :: zs)
  | right {xs ys zs} (y : ExecutionResponse) :
      Ilv xs ys zs → Ilv xs (y :: ys) (y :: zs)

theorem syncTrace_msgs_ilv {xs ys zs : List TraceEvent}
    (h : SyncTrace xs ys zs) :
    Ilv (traceMsgs xs) (traceMsgs ys) (traceMsgs zs) := by
  induction h with
  | nil => exact .nil
  | left m _ ih => exact .left m ih
  | right m _ ih => exact .right m ih
  | sync _ ih => exact ih

theorem ilv_nil_left {ys zs : List ExecutionResponse} (h : Ilv [] ys zs) :
    zs = ys := by
  generalize hx : ([] : List ExecutionResponse) = xs at h
  induction h with
  | nil => rfl
  | left x _ ih => exact absurd hx.symm (by simp)
  | right y _ ih => rw [ih hx]

theorem ilv_single_replicate (x y : ExecutionResponse) :
    ∀ {l r ms : List ExecutionResponse}, Ilv l r ms →
    (∃ k, r = List.replicate k y) → l = [x] →
    ∃ i j, ms = List.replicate i y ++ x :: List.replicate j y := by
  intro l r ms h
  induction h with
  | nil => intro _ hl; exact absurd hl (by simp)
  | left z hrest ih =>
    intro hk hl
    injection hl with hz htail
    subst hz
    obtain ⟨k, hkr⟩ := hk
    subst hkr htail
    exact ⟨0, k, by rw [ilv_nil_left hrest]; rfl⟩
  | right z hrest ih =>
    intro hk hl
    obtain ⟨k, hkr⟩ := hk
    match k, hkr with
    | k + 1, hkr =>
      rw [List.replicate_succ] at hkr
      injection hkr with hz htail
      subst hz
      obtain ⟨i, j, hij⟩ := ih ⟨k, htail⟩ hl
      exact ⟨i + 1, j, by rw [hij, List.replicate_succ]; rfl⟩

theorem traceMsgs_pulseEv (k : Nat) :
    traceMsgs (pulseEv k) = List.replicate k .keepalive := by
  induction k with
  | zero => rfl
  | succ n ih =>
    simp only [pulseEv, List.replicate_succ, List.cons_append, traceMsgs] at ih ⊢
    exact congrArg (List.cons ExecutionResponse.keepalive) ih

/-- C2 as amended: on a clean exit, among the messages delivered by the
supervisor's termination phase and the keepalive task, every message after
the exit-stats message is a keepalive: that portion of the stream is some
keepalives, the one exit-stats message, then some keepalives.  Nothing is
asserted about the stdout/stderr pumps: their `stream.Send` calls have no
happens-before edge with the exit waiter (`command.Wait` returns on
process exit, not on pump completion), so a pending pump chunk may also be
delivered after the exit-stats message — see
`pump_chunk_unordered_after_exit_stats`. -/
theorem exit_stats_followed_only_by_keepalives (sys usr : Int) (k : Nat)
    (t : List TraceEvent)
    (ht : SyncTrace (supervisorCleanEv sys usr) (pulseEv k) t) :
    ∃ i j, traceMsgs t
      = List.replicate i ExecutionResponse.keepalive
        ++ ExecutionResponse.exitStats sys usr ::
          List.replicate j ExecutionResponse.keepalive := by
  have h := syncTrace_msgs_ilv ht
  rw [traceMsgs_pulseEv] at h
  exact ilv_single_replicate (ExecutionResponse.exitStats sys usr)
    .keepalive h ⟨k, rfl⟩ rfl

/-- Counterexample to C2 as stated: a valid interleaving of the clean-exit
supervisor with the keepalive thread in which the minute ticker fires
between the exit-stats send and the deferred stop signal, so a keepalive
message is delivered after the exit-stats message. -/
theorem exit_stats_not_last_cex :
    SyncTrace (supervisorCleanEv 3 1) (pulseEv 1)
      [.send (.exitStats 3 1), .send .keepalive, .stop] ∧
    traceMsgs [.send (.exitStats 3 1), .send .keepalive, .stop]
      = [.exitStats 3 1, .keepalive] := by
  constructor
  · show SyncTrace [.send (.exitStats 3 1), .stop]
      [.send .keepalive, .stop] [.send (.exitStats 3 1), .send .keepalive, .stop]
    exact .left _ (.right _ (.sync .nil))
  · rfl

/-- Witness for the amended C2, at the counterexample's trace. -/
theorem exit_stats_followed_only_by_keepalives_witness :
    ∃ i j, traceMsgs [.send (.exitStats 3 1), .send .keepalive, .stop]
      = List.replicate i ExecutionResponse.keepalive
        ++ ExecutionResponse.exitStats 3 1 ::
          List.replicate j ExecutionResponse.keepalive :=
  exit_stats_followed_only_by_keepalives 3 1 1 _
    (by show SyncTrace [.send (.exitStats 3 1), .stop]
          [.send .keepalive, .stop] [.send (.exitStats 3 1), .send .keepalive, .stop]
        exact .left _ (.right _ (.sync .nil)))

/-- A free (unsynchronised) interleaving of two event lists: how a pump
thread's events combine with the rest of the system — the pumps take part
in no rendezvous with the supervisor's termination phase, since
`command.Wait()` returns on process exit, not on pump completion. -/
inductive FreeIlv : List TraceEvent → List TraceEvent → List TraceEvent → Prop
  | nil : FreeIlv [] [] []
  | left {xs ys zs} (a : TraceEvent) :
      FreeIlv xs ys zs → FreeIlv (a :: xs) ys (a :: zs)
  | right {xs ys zs} (a : TraceEvent) :
      FreeIlv xs ys zs → FreeIlv xs (a :: ys) (a :: zs)

/-- Why the amendment of C2 stays silent about the pumps: a stdout pump
with one pending chunk interleaves freely with the clean-exit termination
phase, and one of the resulting traces delivers the stdout chunk after the
exit-stats message. -/
theorem pump_chunk_unordered_after_exit_stats :
    SyncTrace (supervisorCleanEv 3 1) (pulseEv 0)
      [.send (.exitStats 3 1), .stop] ∧
    FreeIlv [.send (.output [104, 105])] [.send (.exitStats 3 1), .stop]
      [.send (.exitStats 3 1), .send (.output [104, 105]), .stop] ∧
    traceMsgs [.send (.exitStats 3 1), .send (.output [104, 105]), .stop]
      = [.exitStats 3 1, .output [104, 105]] := by
  refine ⟨?_, ?_, rfl⟩
  · show SyncTrace [.send (.exitStats 3 1), .stop] [.stop]
      [.send (.exitStats 3 1), .stop]
    exact .left _ (.sync .nil)
  · exact .right _ (.left _ (.right _ .nil))

/-! ## DoMergeTo (instruction/mergeTo.go) -/

/-- The stream of `util.ReadMessage` results from one reader: the messages
read in order, then a terminator — `none` models `io.EOF`, `some e` any
other read error. -/
structure MsgReader where
  msgs : List (List Nat)
  terminal : Option GoError

/-- The inner loop of `DoMergeTo` for one reader: `x, err := ReadMessage;
for err == nil { if err := WriteMessage(writer, x); err != nil { return
err }; x, err = ReadMessage }; if err != io.EOF { return err }`.  `wr i` is
the outcome of the i-th `WriteMessage` attempt.  Returns (messages
written, writes performed, early-return error — `none` meaning the loop
ended in `io.EOF` and control falls through to the next reader). -/
def mergeReaderLoop (wr : Nat → Option GoError) :
    List (List Nat) → Option GoError → List (List Nat) × Nat × Option GoError
  | [], none => ([], 0, none)
  | [], some e => ([], 0, some e)
  | x :: rest, t =>
    match wr 0 with
    | some e => ([], 0, some e)
    | none =>
      let r := mergeReaderLoop (fun i => wr (i + 1)) rest t
      (x :: r.1, r.2.1 + 1, r.2.2)

/-- `DoMergeTo`, straight from the source: run the read-write loop on each
reader in list order; a write error or non-EOF read error returns at once;
when every reader ends in `io.EOF`, return nil.  Returns (messages written
to the writer in order, returned error). -/
def DoMergeTo (wr : Nat → Option GoError) :
    List MsgReader → List (List Nat) × Option GoError
  | [] => ([], none)
  | r :: rest =>
    let res := mergeReaderLoop wr r.msgs r.terminal
    match res.2.2 with
    | some e => (res.1, some e)
    | none =>
      let tail := DoMergeTo (fun i => wr (i + res.2.1)) rest
      (res.1 ++ tail.1, tail.2)

/-- Following the claim's words: the messages `DoMergeTo` would attempt to
write — each reader's messages in read order, readers in list order, up to
and including the first reader whose stream ends in a non-EOF read error —
paired with that first read error (`none` when every reader ends in
EOF). -/
def readAttempts : List MsgReader → List (List Nat) × Option GoError
  | [] => ([], none)
  | r :: rest =>
    match r.terminal with
    | some e => (r.msgs, some e)
    | none =>
      let t := readAttempts rest
      (r.msgs ++ t.1, t.2)

/-- Following the claim's words: the position and error of the first failed
write among the first `n` write attempts. -/
def firstWriteErr (wr : Nat → Option GoError) : Nat → Option (Nat × GoError)
  | 0 => none
  | n + 1 =>
    match wr 0 with
    | some e => some (0, e)
    | none => (firstWriteErr (fun i => wr (i + 1)) n).map (fun p => (p.1 + 1, p.2))

/-- Following the claim's words: `DoMergeTo` writes the attempted messages
in order; a first write failure at position k truncates the output to the
k messages before it and returns the write error; otherwise all attempted
messages are written and the first non-EOF read error (or nil) is
returned. -/
def mergeToSpec (wr : Nat → Option GoError) (readers : List MsgReader) :
    List (List Nat) × Option GoError :=
  let a := readAttempts readers
  match firstWriteErr wr a.1.length with
  | some (k, e) => (a.1.take k, some e)
  | none => (a.1, a.2)

theorem firstWriteErr_lt (wr : Nat → Option GoError) :
    ∀ n k e, firstWriteErr wr n = some (k, e) → k < n := by
  intro n
  induction n generalizing wr with
  | zero => intro k e h; exact absurd h (by simp [firstWriteErr])
  | succ m ih =>
    intro k e h
    simp only [firstWriteErr] at h
    cases hw : wr 0 with
    | some e0 =>
      rw [hw] at h
      injection h with h
      injection h with h1 h2
      omega
    | none =>
      rw [hw] at h
      cases hf : firstWriteErr (fun i => wr (i + 1)) m with
      | none => rw [hf] at h; exact absurd h (by simp)
      | some p =>
        rw [hf] at h
        injection h with h
        have := ih (fun i => wr (i + 1)) p.1 p.2 (by rw [hf])
        have hk : k = p.1 + 1 := by
          have := congrArg Prod.fst h.symm
          simpa using this
        omega

theorem mergeReaderLoop_eq (t : Option GoError) :
    ∀ (msgs : List (List Nat)) (wr : Nat → Option GoError),
    mergeReaderLoop wr msgs t =
      match firstWriteErr wr msgs.length with
      | some (k, e) => (msgs.take k, k, some e)
      | none => (msgs, msgs.length, t) := by
  intro msgs
  induction msgs with
  | nil =>
    intro wr
    cases t <;> rfl
  | cons x rest ih =>
    intro wr
    simp only [mergeReaderLoop, List.length_cons, firstWriteErr]
    cases hw : wr 0 with
    | some e => rfl
    | none =>
      rw [ih (fun i => wr (i + 1))]
      cases hf : firstWriteErr (fun i => wr (i + 1)) rest.length with
      | none => rfl
      | some p => rfl

theorem firstWriteErr_add_some (b : Nat) :
    ∀ (a : Nat) (wr : Nat → Option GoError) (p : Nat × GoError),
    firstWriteErr wr a = some p → firstWriteErr wr (a + b) = some p := by
  intro a
  induction a with
  | zero => intro wr p h; exact absurd h (by simp [firstWriteErr])
  | succ m ih =>
    intro wr p h
    have hb : m + 1 + b = (m + b) + 1 := by omega
    rw [hb]
    simp only [firstWriteErr] at h ⊢
    cases hw : wr 0 with
    | some e => rw [hw] at h; exact h
    | none =>
      rw [hw] at h
      have h2 : (firstWriteErr (fun i => wr (i + 1)) m).map
          (fun q => (q.1 + 1, q.2)) = some p := h
      cases hg : firstWriteErr (fun i => wr (i + 1)) m with
      | none => rw [hg] at h2; exact absurd h2 (by simp)
      | some q =>
        rw [hg] at h2
        rw [ih (fun i => wr (i + 1)) q hg]
        exact h2

theorem firstWriteErr_add_none (b : Nat) :
    ∀ (a : Nat) (wr : Nat → Option GoError),
    firstWriteErr wr a = none →
    firstWriteErr wr (a + b)
      = (firstWriteErr (fun i => wr (i + a)) b).map (fun p => (p.1 + a, p.2)) := by
  intro a
  induction a with
  | zero =>
    intro wr _
    rw [Nat.zero_add]
    have hwr : (fun i => wr (i + 0)) = wr := rfl
    rw [hwr]
    cases hf : firstWriteErr wr b with
    | none => rfl
    | some p => rfl
  | succ m ih =>
    intro wr h
    have hb : m + 1 + b = (m + b) + 1 := by omega
    rw [hb]
    simp only [firstWriteErr] at h ⊢
    cases hw : wr 0 with
    | some e => rw [hw] at h; exact Option.noConfusion h
    | none =>
      rw [hw] at h
      have h2 : (firstWriteErr (fun i => wr (i + 1)) m).map
          (fun p => (p.1 + 1, p.2)) = none := h
      cases hg : firstWriteErr (fun i => wr (i + 1)) m with
      | some q =>
        rw [hg] at h2
        exact Option.noConfusion h2
      | none =>
        rw [ih (fun i => wr (i + 1)) hg, Option.map_map]
        rfl

/-- C10: `DoMergeTo` writes to the writer exactly the concatenation of the
messages read from each reader, readers in list order and messages in read
order; it returns nil when every reader ends in EOF, and otherwise the
first write error or non-EOF read error encountered, having written
exactly the messages that preceded it. -/
theorem DoMergeTo_eq_spec (readers : List MsgReader) :
    ∀ wr : Nat → Option GoError, DoMergeTo wr readers = mergeToSpec wr readers := by
  induction readers with
  | nil => intro wr; rfl
  | cons r rest ih =>
    intro wr
    simp only [DoMergeTo, mergeToSpec, readAttempts]
    rw [mergeReaderLoop_eq]
    cases ht : r.terminal with
    | some e =>
      simp only
      cases hf : firstWriteErr wr r.msgs.length with
      | some p => rfl
      | none => rfl
    | none =>
      simp only
      rw [List.length_append]
      cases hf : firstWriteErr wr r.msgs.length with
      | some p =>
        obtain ⟨k, e⟩ := p
        rw [firstWriteErr_add_some (readAttempts rest).1.length r.msgs.length wr (k, e) hf]
        simp only
        have hk : k < r.msgs.length := firstWriteErr_lt wr _ k e hf
        rw [List.take_append_of_le_length (Nat.le_of_lt hk)]
      | none =>
        rw [firstWriteErr_add_none (readAttempts rest).1.length r.msgs.length wr hf]
        rw [ih (fun i => wr (i + r.msgs.length))]
        simp only [mergeToSpec]
        cases hg : firstWriteErr (fun i => wr (i + r.msgs.length))
            (readAttempts rest).1.length with
        | none => rfl
        | some p =>
          obtain ⟨k, e⟩ := p
          simp only [Option.map_some']
          rw [show k + r.msgs.length = r.msgs.length + k from Nat.add_comm _ _,
            List.take_append]

end Gleam
